import Mathlib

/-!
# auth-aws: the ADFS login scraper (`adfs.go`)

A shallow embedding of the pure part of `adfs.go`: the hostname normalisation at
the end of `newAdfsClient`, the login-page scraper `scrapeLoginPage` and the
result-page scraper `scrapeSamlResponse`, together with the library functions
they call (`strings.HasPrefix`, `strings.Contains`, `scrape.Find`,
`scrape.FindAll`, `scrape.Attr`, `url.Values.Set`).

Modelling decisions.

* Go strings are modelled by Lean strings, `+` by `++`, and substring search by
  search on the list of characters.
* A parsed HTML document (`*html.Node`, the result of `html.Parse`) is a finite
  tree: a node carries its `DataAtom`, its attribute list and the list of its
  children in sibling order (`FirstChild`, then `NextSibling` repeatedly).  The
  fields of `html.Node` that the program never reads are left out.
* `url.Values` (`map[string][]string`) is an association list with pairwise
  distinct keys; what is observable of a Go map is `lookup` and the key set.
* A call that aborts the program (`checkOk`) is modelled in `Except String`,
  the message being the error.
-/

namespace AuthAws

/-! ## Strings -/

namespace strings

/-- Search of `substr` at every position of `s`, both as character lists. -/
def containsChars (substr : List Char) : List Char → Bool
  | [] => substr.isPrefixOf []
  | c :: cs => substr.isPrefixOf (c :: cs) || containsChars substr cs

/-- Go `strings.Contains(s, substr)`: `substr` occurs within `s`, compared
character by character (so case matters). -/
def Contains (s substr : String) : Bool :=
  containsChars substr.data s.data

/-- Go `strings.HasPrefix(s, prefix)`: `s` begins with `pre`. -/
def HasPrefix (s pre : String) : Bool :=
  pre.data.isPrefixOf s.data

/-- Substring test after lower-casing both sides: the case-insensitive
comparison that the specification describes, used only to state it. -/
def ContainsFold (s substr : String) : Bool :=
  containsChars (substr.data.map Char.toLower) (s.data.map Char.toLower)

end strings

/-! ## HTML nodes -/

namespace atom

/-- The `atom.Atom` code of a tag name.  Only `Form` and `Input` are tested by
the program; `Zero` is the atom of text, comment and document nodes and of
unknown tags, `Other` stands for every other known tag. -/
inductive Atom where
  | Zero
  | Form
  | Input
  | Other (code : Nat)
  deriving DecidableEq, Repr

end atom

namespace html

/-- An `html.Attribute`: a key and its value. -/
structure Attribute where
  Key : String
  Val : String
  deriving DecidableEq, Repr

/-- An `html.Node` with the subtree below it. -/
inductive Node where
  | mk (DataAtom : atom.Atom) (Attr : List Attribute) (children : List Node)
  deriving Repr

/-- The field `DataAtom`. -/
def Node.DataAtom : Node → atom.Atom
  | .mk a _ _ => a

/-- The field `Attr`. -/
def Node.Attr : Node → List Attribute
  | .mk _ as _ => as

/-- The children, from `FirstChild` along `NextSibling`. -/
def Node.children : Node → List Node
  | .mk _ _ cs => cs

end html

open html (Node Attribute)

/-! ## The scrape library -/

namespace scrape

mutual
/-- Function `scrape.Find`: the node itself when it matches, otherwise the first
hit among the searches of its children, in sibling order. -/
def Find (matcher : Node → Bool) : Node → Option Node
  | .mk a as cs =>
    if matcher (.mk a as cs) then some (.mk a as cs) else FindChildren matcher cs
/-- The loop `for c := node.FirstChild; c != nil; c = c.NextSibling` of `Find`. -/
def FindChildren (matcher : Node → Bool) : List Node → Option Node
  | [] => none
  | c :: rest =>
    match Find matcher c with
    | some n => some n
    | none => FindChildren matcher rest
end

mutual
/-- Function `scrape.FindAll` (`findAllInternal` with `searchNested = false`):
a matching node is returned alone, without searching below it; otherwise the
results for the children are appended in sibling order. -/
def FindAll (matcher : Node → Bool) : Node → List Node
  | .mk a as cs =>
    if matcher (.mk a as cs) then [.mk a as cs] else FindAllChildren matcher cs
/-- The loop over the children in `findAllInternal`. -/
def FindAllChildren (matcher : Node → Bool) : List Node → List Node
  | [] => []
  | c :: rest => FindAll matcher c ++ FindAllChildren matcher rest
end

/-- The loop of `scrape.Attr` over the attribute list. -/
def attrVal (key : String) : List Attribute → String
  | [] => ""
  | a :: rest => if a.Key = key then a.Val else attrVal key rest

/-- Function `scrape.Attr`: the value of the first attribute with the given
key, the empty string when there is none. -/
def Attr (node : Node) (key : String) : String :=
  attrVal key node.Attr

end scrape

/-! ## Document order -/

mutual
/-- All nodes of the tree in depth-first (document) order, the root first. -/
def preorder : Node → List Node
  | .mk a as cs => .mk a as cs :: preorderList cs
/-- Document order of a list of sibling trees. -/
def preorderList : List Node → List Node
  | [] => []
  | c :: rest => preorder c ++ preorderList rest
end

/-! ## Form data -/

namespace url

/-- Go `url.Values`, a `map[string][]string`, as an association list. -/
structure Values where
  entries : List (String × List String)
  deriving DecidableEq, Repr

namespace Values

/-- The empty map `url.Values{}`. -/
def empty : Values := ⟨[]⟩

/-- The map access `v[key]`. -/
def lookup (v : Values) (key : String) : Option (List String) :=
  v.entries.lookup key

/-- The keys of the map. -/
def keys (v : Values) : List String :=
  v.entries.map Prod.fst

/-- Method `Values.Set`: `v[key] = []string{value}`, replacing what the key
had before. -/
def Set (v : Values) (key value : String) : Values :=
  ⟨(key, [value]) :: v.entries.filter (fun e => decide (e.1 ≠ key))⟩

end Values

end url

/-! ## The client -/

/-- The struct `AdfsClient`. -/
structure AdfsClient where
  Username : String
  Password : String
  Hostname : String
  deriving DecidableEq, Repr

/-- Function `inputMatcher`. -/
def inputMatcher (n : Node) : Bool :=
  decide (n.DataAtom = atom.Atom.Input)

/-- Function `formMatcher`. -/
def formMatcher (n : Node) : Bool :=
  decide (n.DataAtom = atom.Atom.Form)

/-- Modelled from the spec: `checkOk` is defined outside `adfs.go`; a missing
element "fails with NotFoundError", so `checkOk(ok, message)` aborts with
`message` when `ok` is false and does nothing otherwise. -/
def checkOk (ok : Bool) (message : String) : Except String Unit :=
  if ok then .ok () else .error message

/-- The end of `newAdfsClient`: `client` is the client as the settings file,
the environment and the prompts have filled it; the hostname gets the
`https://` scheme when it does not start with it. -/
def newAdfsClient (client : AdfsClient) : AdfsClient :=
  if !strings.HasPrefix client.Hostname "https://" then
    { client with Hostname := "https://" ++ client.Hostname }
  else client

/-- One iteration of the `for _, n := range inputs` loop of `scrapeLoginPage`:
the `switch` on the name of the input. -/
def formDataStep (ac : AdfsClient) (formData : url.Values) (n : Node) : url.Values :=
  let name := scrape.Attr n "name"
  let value := scrape.Attr n "value"
  if strings.Contains name "Password" then formData.Set name ac.Password
  else if strings.Contains name "Username" then formData.Set name ac.Username
  else formData.Set name value

/-- The payload loop of `scrapeLoginPage`, from the empty `url.Values`. -/
def buildFormData (ac : AdfsClient) (inputs : List Node) : url.Values :=
  inputs.foldl (formDataStep ac) url.Values.empty

/-- Method `scrapeLoginPage`, from the parsed document `root` on.  When
`checkOk` lets a missing form through, `scrape.Attr` dereferences nil. -/
def scrapeLoginPage (ac : AdfsClient) (root : Node) : Except String (String × url.Values) :=
  let inputs := scrape.FindAll inputMatcher root
  let form := scrape.Find formMatcher root
  (checkOk form.isSome "Can't find login form").bind fun _ =>
    let formData := buildFormData ac inputs
    match form with
    | some f => .ok (ac.Hostname ++ scrape.Attr f "action", formData)
    | none => .error "nil pointer dereference"

/-- Method `scrapeSamlResponse`, from the parsed document `root` on;
`samlResponseMatcher` is defined outside `adfs.go` and is a parameter. -/
def scrapeSamlResponse (samlResponseMatcher : Node → Bool) (root : Node) :
    Except String String :=
  let input := scrape.Find samlResponseMatcher root
  (checkOk input.isSome "Can't find saml response").bind fun _ =>
    match input with
    | some i => .ok (scrape.Attr i "value")
    | none => .error "nil pointer dereference"

/-! ## Definitions used to state the properties -/

/-- The value that the `switch` of the payload loop stores under the name of
the input `n`. -/
def fieldValue (ac : AdfsClient) (n : Node) : String :=
  if strings.Contains (scrape.Attr n "name") "Password" then ac.Password
  else if strings.Contains (scrape.Attr n "name") "Username" then ac.Username
  else scrape.Attr n "value"

/-- The pure passthrough payload: every input contributes its own `value`. -/
def passthrough (inputs : List Node) : url.Values :=
  inputs.foldl (fun fd n => fd.Set (scrape.Attr n "name") (scrape.Attr n "value"))
    url.Values.empty

/-! ## Concrete documents -/

/-- An input element with the given `name` and `value` attributes. -/
def inputNode (name value : String) : Node :=
  .mk atom.Atom.Input [⟨"type", "text"⟩, ⟨"name", name⟩, ⟨"value", value⟩] []

/-- A form element with the given `action` attribute and content. -/
def loginForm (action : String) (inputs : List Node) : Node :=
  .mk atom.Atom.Form [⟨"method", "post"⟩, ⟨"action", action⟩] inputs

/-- A login page: a document node, `html`, an empty `head`, and a `body` that
holds the form with the inputs inside. -/
def loginPage (action : String) (inputs : List Node) : Node :=
  .mk atom.Atom.Zero []
    [.mk (atom.Atom.Other 0) []
      [.mk (atom.Atom.Other 1) [] [],
       .mk (atom.Atom.Other 2) [] [loginForm action inputs]]]

/-- The client of the end-to-end scenario. -/
def alice : AdfsClient :=
  ⟨"alice", "s3cr3t", "https://idp.example.com"⟩

/-- The login page of the end-to-end scenario. -/
def scenarioPage : Node :=
  loginPage "/adfs/ls/"
    [inputNode "UserName" "", inputNode "Password" "",
     inputNode "AuthMethod" "FormsAuthentication"]

/-- A page without any form: `html > body > p`. -/
def errorPage : Node :=
  .mk atom.Atom.Zero []
    [.mk (atom.Atom.Other 0) [] [.mk (atom.Atom.Other 2) [] [.mk (atom.Atom.Other 3) [] []]]]

/-- A matcher for the hidden input named `SAMLResponse`, an instance of the
parameter of `scrapeSamlResponse`. -/
def samlInputMatcher (n : Node) : Bool :=
  decide (n.DataAtom = atom.Atom.Input) && decide (scrape.Attr n "name" = "SAMLResponse")

open scrape url

/-! ## Strings: lemmas -/

theorem strings.containsChars_iff (substr s : List Char) :
    strings.containsChars substr s = true ↔ substr <:+: s := by
  induction s with
  | nil =>
    cases substr <;> simp [strings.containsChars, List.isPrefixOf]
  | cons c cs ih =>
    simp only [strings.containsChars, Bool.or_eq_true, ih, List.isPrefixOf_iff_prefix,
      List.infix_cons_iff]

theorem strings.ContainsFold_of_Contains (s substr : String)
    (h : strings.Contains s substr = true) : strings.ContainsFold s substr = true := by
  rw [strings.ContainsFold, strings.containsChars_iff]
  exact ((strings.containsChars_iff _ _).1 h).map _

theorem strings.HasPrefix_append (p s : String) : strings.HasPrefix (p ++ s) p = true := by
  simp [strings.HasPrefix, List.isPrefixOf_iff_prefix]

/-! ## Form data: lemmas -/

theorem url.Values.lookup_Set (v : Values) (key value k : String) :
    (v.Set key value).lookup k = if k = key then some [value] else v.lookup k := by
  obtain ⟨es⟩ := v
  simp only [Values.Set, Values.lookup]
  by_cases h : k = key
  · subst h
    simp [List.lookup]
  · have hb : (k == key) = false := by simpa using h
    simp only [List.lookup, hb, if_neg h]
    induction es with
    | nil => rfl
    | cons e rest ih =>
      obtain ⟨a, b⟩ := e
      by_cases ha : a = key
      · subst ha
        have : (k == a) = false := hb
        simpa [List.filter, List.lookup, this] using ih
      · by_cases hk : k = a
        · subst hk
          simp [List.filter, List.lookup, ha]
        · have hka : (k == a) = false := by simpa using hk
          simpa [List.filter, List.lookup, ha, hka] using ih

theorem url.Values.mem_keys_Set (v : Values) (key value k : String) :
    k ∈ (v.Set key value).keys ↔ k = key ∨ k ∈ v.keys := by
  obtain ⟨es⟩ := v
  simp only [Values.Set, Values.keys, List.map_cons, List.mem_cons, List.mem_map,
    List.mem_filter, decide_eq_true_eq]
  constructor
  · rintro (h | ⟨e, ⟨he, _⟩, rfl⟩)
    · exact Or.inl h
    · exact Or.inr ⟨e, he, rfl⟩
  · rintro (h | ⟨e, he, rfl⟩)
    · exact Or.inl h
    · by_cases hk : e.1 = key
      · exact Or.inl hk
      · exact Or.inr ⟨e, ⟨he, hk⟩, rfl⟩

theorem url.Values.nodup_keys_Set (v : Values) (key value : String) (h : v.keys.Nodup) :
    (v.Set key value).keys.Nodup := by
  obtain ⟨es⟩ := v
  simp only [Values.Set, Values.keys, List.map_cons, List.nodup_cons, List.mem_map,
    List.mem_filter, decide_eq_true_eq] at h ⊢
  refine ⟨?_, ?_⟩
  · rintro ⟨e, ⟨_, hne⟩, he⟩
    exact hne he
  · exact (List.filter_sublist es).map Prod.fst |>.nodup h


/-! ## The payload loop: lemmas -/

theorem formDataStep_eq (ac : AdfsClient) (fd : Values) (n : Node) :
    formDataStep ac fd n = fd.Set (scrape.Attr n "name") (fieldValue ac n) := by
  simp only [formDataStep, fieldValue]
  split_ifs <;> rfl

theorem foldl_step_mem_keys (ac : AdfsClient) (inputs : List Node) (fd : Values) (k : String) :
    k ∈ (inputs.foldl (formDataStep ac) fd).keys ↔
      (∃ n ∈ inputs, scrape.Attr n "name" = k) ∨ k ∈ fd.keys := by
  induction inputs generalizing fd with
  | nil => simp
  | cons n rest ih =>
    simp only [List.foldl_cons, ih, formDataStep_eq, Values.mem_keys_Set, List.mem_cons,
      exists_eq_or_imp]
    constructor
    · rintro (h | h | h)
      · exact Or.inl (Or.inr h)
      · exact Or.inl (Or.inl h.symm)
      · exact Or.inr h
    · rintro ((h | h) | h)
      · exact Or.inr (Or.inl h.symm)
      · exact Or.inl h
      · exact Or.inr (Or.inr h)

theorem foldl_step_nodup_keys (ac : AdfsClient) (inputs : List Node) (fd : Values)
    (h : fd.keys.Nodup) : (inputs.foldl (formDataStep ac) fd).keys.Nodup := by
  induction inputs generalizing fd with
  | nil => simpa using h
  | cons n rest ih =>
    simp only [List.foldl_cons, formDataStep_eq]
    exact ih _ (Values.nodup_keys_Set fd _ _ h)

theorem foldl_step_lookup_of_absent (ac : AdfsClient) (inputs : List Node) (fd : Values)
    (k : String) (h : ∀ m ∈ inputs, scrape.Attr m "name" ≠ k) :
    (inputs.foldl (formDataStep ac) fd).lookup k = fd.lookup k := by
  induction inputs generalizing fd with
  | nil => rfl
  | cons n rest ih =>
    simp only [List.foldl_cons]
    rw [ih _ (fun m hm => h m (List.mem_cons_of_mem _ hm)), formDataStep_eq,
      Values.lookup_Set, if_neg]
    exact fun hk => h n (List.mem_cons_self _ _) hk.symm

theorem foldl_step_lookup_last (ac : AdfsClient) (pre post : List Node) (n : Node)
    (fd : Values) (h : ∀ m ∈ post, scrape.Attr m "name" ≠ scrape.Attr n "name") :
    ((pre ++ n :: post).foldl (formDataStep ac) fd).lookup (scrape.Attr n "name") =
      some [fieldValue ac n] := by
  rw [List.foldl_append, List.foldl_cons, foldl_step_lookup_of_absent ac post _ _ h,
    formDataStep_eq, Values.lookup_Set, if_pos rfl]

theorem exists_last_with_name (inputs : List Node) (k : String)
    (h : ∃ n ∈ inputs, scrape.Attr n "name" = k) :
    ∃ pre n post, inputs = pre ++ n :: post ∧ scrape.Attr n "name" = k ∧
      ∀ m ∈ post, scrape.Attr m "name" ≠ k := by
  induction inputs with
  | nil => simp at h
  | cons a rest ih =>
    by_cases hr : ∃ n ∈ rest, scrape.Attr n "name" = k
    · obtain ⟨pre, n, post, he, hn, hp⟩ := ih hr
      exact ⟨a :: pre, n, post, by rw [he]; rfl, hn, hp⟩
    · obtain ⟨n, hn, hk⟩ := h
      rcases List.mem_cons.mp hn with rfl | hn
      · exact ⟨[], n, rest, rfl, hk, fun m hm hmk => hr ⟨m, hm, hmk⟩⟩
      · exact absurd ⟨n, hn, hk⟩ hr

theorem buildFormData_lookup_some (ac : AdfsClient) (inputs : List Node) (k : String)
    (h : ∃ n ∈ inputs, scrape.Attr n "name" = k) :
    ∃ n ∈ inputs, scrape.Attr n "name" = k ∧
      (buildFormData ac inputs).lookup k = some [fieldValue ac n] := by
  obtain ⟨pre, n, post, he, hn, hp⟩ := exists_last_with_name inputs k h
  subst he
  subst hn
  exact ⟨n, by simp, rfl, foldl_step_lookup_last ac pre post n _ hp⟩

theorem passthrough_eq_of_no_match (ac : AdfsClient) (inputs : List Node)
    (h : ∀ n ∈ inputs, strings.Contains (scrape.Attr n "name") "Password" = false ∧
      strings.Contains (scrape.Attr n "name") "Username" = false) (fd : Values) :
    inputs.foldl (formDataStep ac) fd =
      inputs.foldl (fun fd n => fd.Set (scrape.Attr n "name") (scrape.Attr n "value")) fd := by
  induction inputs generalizing fd with
  | nil => rfl
  | cons n rest ih =>
    obtain ⟨hp, hu⟩ := h n (List.mem_cons_self _ _)
    simp only [List.foldl_cons]
    rw [ih (fun m hm => h m (List.mem_cons_of_mem _ hm)), formDataStep_eq]
    simp [fieldValue, hp, hu]

/-! ## Searching the document: lemmas -/

mutual
theorem Find_eq_find_preorder (matcher : Node → Bool) :
    ∀ n : Node, scrape.Find matcher n = (preorder n).find? matcher
  | .mk a as cs => by
    by_cases h : matcher (.mk a as cs) = true
    · simp [scrape.Find, preorder, h]
    · simp [scrape.Find, preorder, h, FindChildren_eq_find_preorder matcher cs]
theorem FindChildren_eq_find_preorder (matcher : Node → Bool) :
    ∀ cs : List Node, scrape.FindChildren matcher cs = (preorderList cs).find? matcher
  | [] => by simp [scrape.FindChildren, preorderList]
  | c :: rest => by
    rw [scrape.FindChildren, preorderList, List.find?_append, Find_eq_find_preorder matcher c,
      FindChildren_eq_find_preorder matcher rest]
    cases (preorder c).find? matcher <;> rfl
end

mutual
theorem FindAll_sublist (matcher : Node → Bool) :
    ∀ n : Node, (scrape.FindAll matcher n).Sublist ((preorder n).filter matcher)
  | .mk a as cs => by
    by_cases h : matcher (.mk a as cs) = true
    · simp [scrape.FindAll, preorder, h, List.filter_cons]
    · simpa [scrape.FindAll, preorder, h, List.filter_cons] using
        FindAllChildren_sublist matcher cs
theorem FindAllChildren_sublist (matcher : Node → Bool) :
    ∀ cs : List Node,
      (scrape.FindAllChildren matcher cs).Sublist ((preorderList cs).filter matcher)
  | [] => by simp [scrape.FindAllChildren, preorderList]
  | c :: rest => by
    rw [scrape.FindAllChildren, preorderList, List.filter_append]
    exact (FindAll_sublist matcher c).append (FindAllChildren_sublist matcher rest)
end

theorem FindAll_eq_nil_of_no_match (matcher : Node → Bool) (root : Node)
    (h : ∀ n ∈ preorder root, matcher n = false) : scrape.FindAll matcher root = [] := by
  have hs := FindAll_sublist matcher root
  have : (preorder root).filter matcher = [] := by
    rw [List.filter_eq_nil_iff]
    intro n hn
    simp [h n hn]
  rw [this] at hs
  exact List.sublist_nil.mp hs

theorem scrapeLoginPage_ok (ac : AdfsClient) (root form : Node)
    (h : scrape.Find formMatcher root = some form) :
    scrapeLoginPage ac root =
      .ok (ac.Hostname ++ scrape.Attr form "action",
        buildFormData ac (scrape.FindAll inputMatcher root)) := by
  simp [scrapeLoginPage, h, checkOk, Except.bind]

theorem scrapeLoginPage_error (ac : AdfsClient) (root : Node)
    (h : scrape.Find formMatcher root = none) :
    scrapeLoginPage ac root = .error "Can't find login form" := by
  simp [scrapeLoginPage, h, checkOk, Except.bind]


theorem attrVal_of_missing (key : String) (attrs : List Attribute)
    (h : ∀ a ∈ attrs, a.Key ≠ key) : scrape.attrVal key attrs = "" := by
  induction attrs with
  | nil => rfl
  | cons a rest ih =>
    rw [scrape.attrVal, if_neg (h a (List.mem_cons_self _ _))]
    exact ih (fun b hb => h b (List.mem_cons_of_mem _ hb))

theorem Attr_of_missing (n : Node) (key : String) (h : ∀ a ∈ n.Attr, a.Key ≠ key) :
    scrape.Attr n key = "" :=
  attrVal_of_missing key n.Attr h

theorem Find_eq_some_iff (matcher : Node → Bool) (root x : Node) :
    scrape.Find matcher root = some x ↔
      ∃ pre post, preorder root = pre ++ x :: post ∧ matcher x = true ∧
        ∀ y ∈ pre, matcher y = false := by
  rw [Find_eq_find_preorder, List.find?_eq_some]
  constructor
  · rintro ⟨hx, pre, post, he, hpre⟩
    exact ⟨pre, post, he, hx, fun y hy => by simpa using hpre y hy⟩
  · rintro ⟨pre, post, he, hx, hpre⟩
    exact ⟨hx, pre, post, he, fun y hy => by simp [hpre y hy]⟩

theorem Find_eq_none_iff (matcher : Node → Bool) (root : Node) :
    scrape.Find matcher root = none ↔ ∀ n ∈ preorder root, matcher n = false := by
  rw [Find_eq_find_preorder, List.find?_eq_none]
  simp

theorem Find_isSome_of_match (matcher : Node → Bool) (root : Node)
    (h : ∃ n ∈ preorder root, matcher n = true) : ∃ x, scrape.Find matcher root = some x := by
  cases hf : scrape.Find matcher root with
  | some x => exact ⟨x, rfl⟩
  | none =>
    obtain ⟨n, hn, hm⟩ := h
    rw [Find_eq_none_iff] at hf
    rw [hf n hn] at hm
    exact absurd hm (by decide)

theorem scrapeSamlResponse_ok (matcher : Node → Bool) (root input : Node)
    (h : scrape.Find matcher root = some input) :
    scrapeSamlResponse matcher root = .ok (scrape.Attr input "value") := by
  simp [scrapeSamlResponse, h, checkOk, Except.bind]

theorem scrapeSamlResponse_error (matcher : Node → Bool) (root : Node)
    (h : scrape.Find matcher root = none) :
    scrapeSamlResponse matcher root = .error "Can't find saml response" := by
  simp [scrapeSamlResponse, h, checkOk, Except.bind]

theorem buildFormData_lookup_password (ac : AdfsClient) (inputs : List Node) (n : Node)
    (hn : n ∈ inputs) (hp : strings.Contains (scrape.Attr n "name") "Password" = true) :
    (buildFormData ac inputs).lookup (scrape.Attr n "name") = some [ac.Password] := by
  obtain ⟨m, _, hk, hl⟩ := buildFormData_lookup_some ac inputs _ ⟨n, hn, rfl⟩
  rw [hl, fieldValue, hk, if_pos hp]

theorem buildFormData_lookup_username (ac : AdfsClient) (inputs : List Node) (n : Node)
    (hn : n ∈ inputs) (hp : strings.Contains (scrape.Attr n "name") "Password" = false)
    (hu : strings.Contains (scrape.Attr n "name") "Username" = true) :
    (buildFormData ac inputs).lookup (scrape.Attr n "name") = some [ac.Username] := by
  obtain ⟨m, _, hk, hl⟩ := buildFormData_lookup_some ac inputs _ ⟨n, hn, rfl⟩
  rw [hl, fieldValue, hk, hp, if_neg (by decide), if_pos hu]

theorem buildFormData_lookup_value (ac : AdfsClient) (pre post : List Node) (n : Node)
    (hlast : ∀ m ∈ post, scrape.Attr m "name" ≠ scrape.Attr n "name")
    (hp : strings.Contains (scrape.Attr n "name") "Password" = false)
    (hu : strings.Contains (scrape.Attr n "name") "Username" = false) :
    (buildFormData ac (pre ++ n :: post)).lookup (scrape.Attr n "name") =
      some [scrape.Attr n "value"] := by
  rw [buildFormData, foldl_step_lookup_last ac pre post n _ hlast, fieldValue, hp, hu]
  simp

/-! ## The claims -/

/-- C1, counterexample: the name `password` contains "Password" when case is
ignored, yet `scrapeLoginPage` leaves the input its own value `typed` and does
not store the client's password under it. -/
theorem C1_lowercase_password_keeps_own_value :
    strings.ContainsFold "password" "Password" = true ∧
    ∃ fd, scrapeLoginPage alice (loginPage "/adfs/ls/" [inputNode "password" "typed"]) =
        .ok ("https://idp.example.com/adfs/ls/", fd) ∧
      fd.lookup "password" = some ["typed"] ∧
      fd.lookup "password" ≠ some [alice.Password] :=
  ⟨by decide, _, rfl, by decide, by decide⟩

/-- C1, amended: password matching in the payload loop of `scrapeLoginPage`
compares case exactly. Every found input whose name contains "Password" as
written is mapped to the client's Password, and an input whose name contains
neither "Password" nor "Username" as written, and whose name no later input
repeats, is mapped to its own value attribute. -/
theorem C1_password_match_is_exact_case (ac : AdfsClient) (root form : Node)
    (hform : scrape.Find formMatcher root = some form) :
    ∃ fd, scrapeLoginPage ac root = .ok (ac.Hostname ++ scrape.Attr form "action", fd) ∧
      (∀ n ∈ scrape.FindAll inputMatcher root,
        strings.Contains (scrape.Attr n "name") "Password" = true →
          fd.lookup (scrape.Attr n "name") = some [ac.Password]) ∧
      (∀ pre n post, scrape.FindAll inputMatcher root = pre ++ n :: post →
        (∀ m ∈ post, scrape.Attr m "name" ≠ scrape.Attr n "name") →
        strings.Contains (scrape.Attr n "name") "Password" = false →
        strings.Contains (scrape.Attr n "name") "Username" = false →
          fd.lookup (scrape.Attr n "name") = some [scrape.Attr n "value"]) := by
  refine ⟨_, scrapeLoginPage_ok ac root form hform, ?_, ?_⟩
  · intro n hn hp
    exact buildFormData_lookup_password ac _ n hn hp
  · intro pre n post he hlast hp hu
    rw [he]
    exact buildFormData_lookup_value ac pre post n hlast hp hu

/-- C1, witness: on a page with the inputs `ctl00$Password`, `Email` and
`password`, the first receives the password, `Email` keeps its value, and so
does `password`. -/
theorem C1_password_match_is_exact_case_witness :
    ∃ fd, scrapeLoginPage alice
        (loginPage "/adfs/ls/"
          [inputNode "ctl00$Password" "", inputNode "Email" "a@idp.example.com",
           inputNode "password" "typed"]) =
        .ok ("https://idp.example.com/adfs/ls/", fd) ∧
      fd.lookup "ctl00$Password" = some ["s3cr3t"] ∧
      fd.lookup "Email" = some ["a@idp.example.com"] ∧
      fd.lookup "password" = some ["typed"] := by
  obtain ⟨fd, hfd, hpass, hval⟩ :=
    C1_password_match_is_exact_case alice
      (loginPage "/adfs/ls/"
        [inputNode "ctl00$Password" "", inputNode "Email" "a@idp.example.com",
         inputNode "password" "typed"])
      (loginForm "/adfs/ls/"
        [inputNode "ctl00$Password" "", inputNode "Email" "a@idp.example.com",
         inputNode "password" "typed"]) rfl
  refine ⟨fd, hfd, ?_, ?_, ?_⟩
  · exact hpass (inputNode "ctl00$Password" "") (List.Mem.head _) (by decide)
  · exact hval [inputNode "ctl00$Password" ""] (inputNode "Email" "a@idp.example.com")
      [inputNode "password" "typed"] rfl (by decide) (by decide) (by decide)
  · exact hval [inputNode "ctl00$Password" "", inputNode "Email" "a@idp.example.com"]
      (inputNode "password" "typed") [] rfl (by decide) (by decide) (by decide)

/-- C2, counterexample: in the end-to-end scenario the name `UserName` contains
"Username" when case is ignored and does not contain "Password", yet the
payload of `scrapeLoginPage` maps `UserName` to the input's own empty value and
not to the client's username `alice`. -/
theorem C2_scenario_username_not_injected :
    strings.ContainsFold "UserName" "Username" = true ∧
    strings.ContainsFold "UserName" "Password" = false ∧
    ∃ fd, scrapeLoginPage alice scenarioPage =
        .ok ("https://idp.example.com/adfs/ls/", fd) ∧
      fd.lookup "UserName" = some [""] ∧
      fd.lookup "UserName" ≠ some [alice.Username] :=
  ⟨by decide, by decide, _, rfl, by decide, by decide⟩

/-- C2, amended: username matching compares case exactly. Every found input
whose name contains "Username" as written and does not contain "Password" is
mapped to the client's Username; in the scenario with the inputs `UserName`,
`Password` and `AuthMethod` the payload is exactly
`{UserName: "", Password: "s3cr3t", AuthMethod: "FormsAuthentication"}`. -/
theorem C2_username_match_is_exact_case :
    (∀ (ac : AdfsClient) (root form : Node),
      scrape.Find formMatcher root = some form →
      ∃ fd, scrapeLoginPage ac root = .ok (ac.Hostname ++ scrape.Attr form "action", fd) ∧
        ∀ n ∈ scrape.FindAll inputMatcher root,
          strings.Contains (scrape.Attr n "name") "Username" = true →
          strings.Contains (scrape.Attr n "name") "Password" = false →
            fd.lookup (scrape.Attr n "name") = some [ac.Username]) ∧
    (∃ fd, scrapeLoginPage alice scenarioPage =
        .ok ("https://idp.example.com/adfs/ls/", fd) ∧
      fd.keys.Nodup ∧
      ∀ k, fd.lookup k =
        (⟨[("UserName", [""]), ("Password", ["s3cr3t"]),
           ("AuthMethod", ["FormsAuthentication"])]⟩ : url.Values).lookup k) := by
  refine ⟨?_, _, rfl, by decide, ?_⟩
  · intro ac root form hform
    refine ⟨_, scrapeLoginPage_ok ac root form hform, ?_⟩
    intro n hn hu hp
    exact buildFormData_lookup_username ac _ n hn hp hu
  · intro k
    by_cases h1 : k = "UserName"
    · subst h1; rfl
    by_cases h2 : k = "Password"
    · subst h2; rfl
    by_cases h3 : k = "AuthMethod"
    · subst h3; rfl
    have e1 : (k == "UserName") = false := by simpa using h1
    have e2 : (k == "Password") = false := by simpa using h2
    have e3 : (k == "AuthMethod") = false := by simpa using h3
    show List.lookup k [("AuthMethod", ["FormsAuthentication"]), ("Password", ["s3cr3t"]),
      ("UserName", [""])] = List.lookup k [("UserName", [""]), ("Password", ["s3cr3t"]),
      ("AuthMethod", ["FormsAuthentication"])]
    simp [List.lookup, e1, e2, e3]

/-- C2, witness: when the field is named `Username`, the client's username
`alice` is stored under it. -/
theorem C2_username_match_is_exact_case_witness :
    ∃ fd, scrapeLoginPage alice
        (loginPage "/adfs/ls/" [inputNode "Username" "", inputNode "Password" ""]) =
        .ok ("https://idp.example.com/adfs/ls/", fd) ∧
      fd.lookup "Username" = some ["alice"] := by
  obtain ⟨fd, hfd, hname⟩ :=
    C2_username_match_is_exact_case.1 alice
      (loginPage "/adfs/ls/" [inputNode "Username" "", inputNode "Password" ""])
      (loginForm "/adfs/ls/" [inputNode "Username" "", inputNode "Password" ""]) rfl
  exact ⟨fd, hfd, hname (inputNode "Username" "") (List.Mem.head _) (by decide) (by decide)⟩

/-- C3: the payload never drops a field. When the document has a form, the
keys of the form data returned by `scrapeLoginPage` are pairwise distinct and
are exactly the `name` attributes of the inputs found in the document; an input
without a `name` attribute contributes the key `""`. -/
theorem C3_payload_keys_are_input_names (ac : AdfsClient) (root form : Node)
    (hform : scrape.Find formMatcher root = some form) :
    ∃ fd, scrapeLoginPage ac root = .ok (ac.Hostname ++ scrape.Attr form "action", fd) ∧
      fd.keys.Nodup ∧
      (∀ k, k ∈ fd.keys ↔ ∃ n ∈ scrape.FindAll inputMatcher root, scrape.Attr n "name" = k) ∧
      (∀ n ∈ scrape.FindAll inputMatcher root,
        (∀ a ∈ n.Attr, a.Key ≠ "name") → "" ∈ fd.keys) := by
  have hkeys : ∀ k, k ∈ (buildFormData ac (scrape.FindAll inputMatcher root)).keys ↔
      ∃ n ∈ scrape.FindAll inputMatcher root, scrape.Attr n "name" = k := by
    intro k
    rw [buildFormData, foldl_step_mem_keys]
    simp [url.Values.empty, url.Values.keys]
  refine ⟨_, scrapeLoginPage_ok ac root form hform, ?_, hkeys, ?_⟩
  · exact foldl_step_nodup_keys ac _ _ (by simp [url.Values.empty, url.Values.keys])
  · intro n hn hmiss
    exact (hkeys "").2 ⟨n, hn, Attr_of_missing n "name" hmiss⟩

/-- C3, witness: on a page with the inputs `a`, `b`, `a` and one input without
a name, the keys are pairwise distinct and `a`, `b` and `""` are among them. -/
theorem C3_payload_keys_are_input_names_witness :
    ∃ fd, scrapeLoginPage alice
        (loginPage "/adfs/ls/"
          [inputNode "a" "1", inputNode "b" "2", inputNode "a" "3",
           .mk atom.Atom.Input [⟨"type", "submit"⟩] []]) =
        .ok ("https://idp.example.com/adfs/ls/", fd) ∧
      fd.keys.Nodup ∧ "a" ∈ fd.keys ∧ "b" ∈ fd.keys ∧ "" ∈ fd.keys := by
  obtain ⟨fd, hfd, hnodup, hkeys, hempty⟩ :=
    C3_payload_keys_are_input_names alice
      (loginPage "/adfs/ls/"
        [inputNode "a" "1", inputNode "b" "2", inputNode "a" "3",
         .mk atom.Atom.Input [⟨"type", "submit"⟩] []])
      (loginForm "/adfs/ls/"
        [inputNode "a" "1", inputNode "b" "2", inputNode "a" "3",
         .mk atom.Atom.Input [⟨"type", "submit"⟩] []]) rfl
  refine ⟨fd, hfd, hnodup, ?_, ?_, ?_⟩
  · exact (hkeys "a").2 ⟨inputNode "a" "1", List.Mem.head _, by decide⟩
  · exact (hkeys "b").2 ⟨inputNode "b" "2", List.Mem.tail _ (List.Mem.head _), by decide⟩
  · exact hempty (.mk atom.Atom.Input [⟨"type", "submit"⟩] [])
      (List.Mem.tail _ (List.Mem.tail _ (List.Mem.tail _ (List.Mem.head _)))) (by decide)

/-- C4: last write wins. When the document has a form, every key of the form
data returned by `scrapeLoginPage` occurs once and carries exactly one value;
for a found input whose name matches neither credential rule and is not
repeated by a later input, that value is the input's `value` attribute, which
is the empty string when the attribute is missing. -/
theorem C4_last_write_wins (ac : AdfsClient) (root form : Node)
    (hform : scrape.Find formMatcher root = some form) :
    ∃ fd, scrapeLoginPage ac root = .ok (ac.Hostname ++ scrape.Attr form "action", fd) ∧
      fd.keys.Nodup ∧
      (∀ k ∈ fd.keys, ∃ v, fd.lookup k = some [v]) ∧
      (∀ pre n post, scrape.FindAll inputMatcher root = pre ++ n :: post →
        (∀ m ∈ post, scrape.Attr m "name" ≠ scrape.Attr n "name") →
        strings.Contains (scrape.Attr n "name") "Password" = false →
        strings.Contains (scrape.Attr n "name") "Username" = false →
          fd.lookup (scrape.Attr n "name") = some [scrape.Attr n "value"] ∧
          ((∀ a ∈ n.Attr, a.Key ≠ "value") →
            fd.lookup (scrape.Attr n "name") = some [""])) := by
  refine ⟨_, scrapeLoginPage_ok ac root form hform, ?_, ?_, ?_⟩
  · exact foldl_step_nodup_keys ac _ _ (by simp [url.Values.empty, url.Values.keys])
  · intro k hk
    rw [buildFormData, foldl_step_mem_keys] at hk
    rcases hk with hk | hk
    · obtain ⟨n, _, _, hl⟩ := buildFormData_lookup_some ac _ k hk
      exact ⟨_, hl⟩
    · simp [url.Values.empty, url.Values.keys] at hk
  · intro pre n post he hlast hp hu
    rw [he]
    have hv := buildFormData_lookup_value ac pre post n hlast hp hu
    refine ⟨hv, fun hmiss => ?_⟩
    rw [hv, Attr_of_missing n "value" hmiss]

/-- C4, witness: of two inputs named `ctx` the value of the second one is
kept, and an input `flag` without a value attribute is stored as `""`. -/
theorem C4_last_write_wins_witness :
    ∃ fd, scrapeLoginPage alice
        (loginPage "/adfs/ls/"
          [inputNode "ctx" "first", inputNode "ctx" "second",
           .mk atom.Atom.Input [⟨"name", "flag"⟩] []]) =
        .ok ("https://idp.example.com/adfs/ls/", fd) ∧
      fd.lookup "ctx" = some ["second"] ∧ fd.lookup "flag" = some [""] := by
  obtain ⟨fd, hfd, _, _, hlast⟩ :=
    C4_last_write_wins alice
      (loginPage "/adfs/ls/"
        [inputNode "ctx" "first", inputNode "ctx" "second",
         .mk atom.Atom.Input [⟨"name", "flag"⟩] []])
      (loginForm "/adfs/ls/"
        [inputNode "ctx" "first", inputNode "ctx" "second",
         .mk atom.Atom.Input [⟨"name", "flag"⟩] []]) rfl
  refine ⟨fd, hfd, ?_, ?_⟩
  · exact (hlast [inputNode "ctx" "first"] (inputNode "ctx" "second")
      [.mk atom.Atom.Input [⟨"name", "flag"⟩] []] rfl (by decide) (by decide) (by decide)).1
  · exact (hlast [inputNode "ctx" "first", inputNode "ctx" "second"]
      (.mk atom.Atom.Input [⟨"name", "flag"⟩] []) [] rfl (by decide) (by decide)
      (by decide)).2 (by decide)

/-- C5: the form lookup of `scrapeLoginPage` fails exactly when there is no
form. If some node of the document is a form element, the lookup yields the
first one in depth-first order and `scrapeLoginPage` returns a result, with the
empty payload when the document has no input element; if no node is a form
element, `scrapeLoginPage` fails with "Can't find login form". -/
theorem C5_form_lookup_fails_iff_no_form (ac : AdfsClient) (root : Node) :
    ((∃ n ∈ preorder root, formMatcher n = true) →
      ∃ form pre post, preorder root = pre ++ form :: post ∧ formMatcher form = true ∧
        (∀ m ∈ pre, formMatcher m = false) ∧
        scrape.Find formMatcher root = some form ∧
        ∃ fd, scrapeLoginPage ac root = .ok (ac.Hostname ++ scrape.Attr form "action", fd) ∧
          ((∀ n ∈ preorder root, inputMatcher n = false) → fd = url.Values.empty)) ∧
    ((∀ n ∈ preorder root, formMatcher n = false) →
      scrape.Find formMatcher root = none ∧
      scrapeLoginPage ac root = .error "Can't find login form") := by
  constructor
  · intro h
    obtain ⟨form, hform⟩ := Find_isSome_of_match formMatcher root h
    obtain ⟨pre, post, he, hm, hpre⟩ := (Find_eq_some_iff formMatcher root form).1 hform
    refine ⟨form, pre, post, he, hm, hpre, hform, _, scrapeLoginPage_ok ac root form hform, ?_⟩
    intro hnone
    rw [FindAll_eq_nil_of_no_match inputMatcher root hnone]
    rfl
  · intro h
    have hnone := (Find_eq_none_iff formMatcher root).2 h
    exact ⟨hnone, scrapeLoginPage_error ac root hnone⟩

/-- C5, witness: a page whose only form has no input gives the empty payload,
and a page without a form gives the error. -/
theorem C5_form_lookup_fails_iff_no_form_witness :
    scrapeLoginPage alice (loginPage "/adfs/ls/" []) =
        .ok ("https://idp.example.com/adfs/ls/", url.Values.empty) ∧
    scrapeLoginPage alice errorPage = .error "Can't find login form" := by
  constructor
  · obtain ⟨form, pre, post, _, _, _, hfind, fd, hfd, hempty⟩ :=
      (C5_form_lookup_fails_iff_no_form alice (loginPage "/adfs/ls/" [])).1
        ⟨loginForm "/adfs/ls/" [], by simp [loginPage, loginForm, preorder, preorderList],
          by decide⟩
    have hform : form = loginForm "/adfs/ls/" [] := by
      have h : scrape.Find formMatcher (loginPage "/adfs/ls/" []) =
          some (loginForm "/adfs/ls/" []) := rfl
      rw [h] at hfind
      exact (Option.some.inj hfind).symm
    rw [hfd, hempty (by
      intro n hn
      simp [loginPage, loginForm, preorder, preorderList] at hn
      rcases hn with rfl | rfl | rfl | rfl | rfl <;> decide), hform]
    rfl
  · exact ((C5_form_lookup_fails_iff_no_form alice errorPage).2 (by
      intro n hn
      simp [errorPage, preorder, preorderList] at hn
      rcases hn with rfl | rfl | rfl | rfl <;> decide)).2

/-- C6: `scrapeSamlResponse` fails with "Can't find saml response" if and only
if no node of the document satisfies the matcher; when some node does, it
returns the `value` attribute of the first matching node in depth-first
order, not an error and not a default. -/
theorem C6_saml_response_fails_iff_no_match (samlResponseMatcher : Node → Bool) (root : Node) :
    (scrapeSamlResponse samlResponseMatcher root = .error "Can't find saml response" ↔
      ∀ n ∈ preorder root, samlResponseMatcher n = false) ∧
    ((∃ n ∈ preorder root, samlResponseMatcher n = true) →
      ∃ input pre post, preorder root = pre ++ input :: post ∧
        samlResponseMatcher input = true ∧
        (∀ m ∈ pre, samlResponseMatcher m = false) ∧
        scrape.Find samlResponseMatcher root = some input ∧
        scrapeSamlResponse samlResponseMatcher root = .ok (scrape.Attr input "value")) := by
  constructor
  · constructor
    · intro herr
      cases hf : scrape.Find samlResponseMatcher root with
      | none => exact (Find_eq_none_iff _ root).1 hf
      | some input =>
        rw [scrapeSamlResponse_ok _ root input hf] at herr
        cases herr
    · intro h
      exact scrapeSamlResponse_error _ root ((Find_eq_none_iff _ root).2 h)
  · intro h
    obtain ⟨input, hfind⟩ := Find_isSome_of_match samlResponseMatcher root h
    obtain ⟨pre, post, he, hm, hpre⟩ := (Find_eq_some_iff _ root input).1 hfind
    exact ⟨input, pre, post, he, hm, hpre, hfind, scrapeSamlResponse_ok _ root input hfind⟩

/-- C6, witness: a result page carrying a `SAMLResponse` input yields its
value, and the login page of the scenario, which has none, yields the error. -/
theorem C6_saml_response_fails_iff_no_match_witness :
    scrapeSamlResponse samlInputMatcher
        (loginPage "/" [inputNode "RelayState" "", inputNode "SAMLResponse" "PHNhbWw+"]) =
      .ok "PHNhbWw+" ∧
    scrapeSamlResponse samlInputMatcher scenarioPage = .error "Can't find saml response" := by
  constructor
  · obtain ⟨input, _, _, _, _, _, hfind, hres⟩ :=
      (C6_saml_response_fails_iff_no_match samlInputMatcher
        (loginPage "/" [inputNode "RelayState" "", inputNode "SAMLResponse" "PHNhbWw+"])).2
        ⟨inputNode "SAMLResponse" "PHNhbWw+",
          by simp [loginPage, loginForm, preorder, preorderList, inputNode], by decide⟩
    have h : scrape.Find samlInputMatcher
        (loginPage "/" [inputNode "RelayState" "", inputNode "SAMLResponse" "PHNhbWw+"]) =
        some (inputNode "SAMLResponse" "PHNhbWw+") := rfl
    rw [h] at hfind
    rw [hres, ← Option.some.inj hfind]
    rfl
  · exact (C6_saml_response_fails_iff_no_match samlInputMatcher scenarioPage).1.2 (by
      intro n hn
      simp [scenarioPage, loginPage, loginForm, preorder, preorderList, inputNode] at hn
      rcases hn with rfl | rfl | rfl | rfl | rfl | rfl | rfl | rfl <;> decide)

/-- C7: the submit URL returned by `scrapeLoginPage` is the client's Hostname
followed by the `action` attribute of the first form element in depth-first
order, and the Hostname alone when that form has no `action` attribute; for
the Hostname `https://idp.example.com` and the action `/adfs/ls/` it is
`https://idp.example.com/adfs/ls/`. -/
theorem C7_submit_url :
    (∀ (ac : AdfsClient) (root form : Node) (pre post : List Node),
      preorder root = pre ++ form :: post → formMatcher form = true →
      (∀ m ∈ pre, formMatcher m = false) →
      ∃ fd, scrapeLoginPage ac root = .ok (ac.Hostname ++ scrape.Attr form "action", fd) ∧
        ((∀ a ∈ form.Attr, a.Key ≠ "action") →
          scrapeLoginPage ac root = .ok (ac.Hostname, fd))) ∧
    (∀ (user pass : String) (inputs : List Node),
      ∃ fd, scrapeLoginPage ⟨user, pass, "https://idp.example.com"⟩
          (loginPage "/adfs/ls/" inputs) = .ok ("https://idp.example.com/adfs/ls/", fd)) := by
  constructor
  · intro ac root form pre post he hm hpre
    have hfind := (Find_eq_some_iff formMatcher root form).2 ⟨pre, post, he, hm, hpre⟩
    refine ⟨_, scrapeLoginPage_ok ac root form hfind, fun hmiss => ?_⟩
    rw [scrapeLoginPage_ok ac root form hfind, Attr_of_missing form "action" hmiss,
      String.append_empty]
  · intro user pass inputs
    exact ⟨_, scrapeLoginPage_ok _ _ (loginForm "/adfs/ls/" inputs) rfl⟩

/-- C7, witness: a page whose form has no `action` attribute is submitted to
the Hostname itself. -/
theorem C7_submit_url_witness :
    ∃ fd, scrapeLoginPage alice
        (.mk atom.Atom.Zero [] [.mk atom.Atom.Form [⟨"method", "post"⟩] []]) =
      .ok ("https://idp.example.com", fd) := by
  obtain ⟨fd, _, hmiss⟩ :=
    C7_submit_url.1 alice
      (.mk atom.Atom.Zero [] [.mk atom.Atom.Form [⟨"method", "post"⟩] []])
      (.mk atom.Atom.Form [⟨"method", "post"⟩] [])
      [.mk atom.Atom.Zero [] [.mk atom.Atom.Form [⟨"method", "post"⟩] []]] [] rfl
      (by decide) (by
        intro m hm
        rw [List.mem_singleton.mp hm]
        decide)
  exact ⟨fd, hmiss (by decide)⟩

/-- C8: credentials are never injected when no field matches. When the
document has a form and no found input has a name containing "Password" or
"Username", `scrapeLoginPage` returns, without error, the pure passthrough of
each input's own value, and two clients with the same Hostname get the same
result whatever their Username and Password. -/
theorem C8_no_match_no_injection (ac₁ ac₂ : AdfsClient) (root form : Node)
    (hform : scrape.Find formMatcher root = some form)
    (hhost : ac₁.Hostname = ac₂.Hostname)
    (hnone : ∀ n ∈ scrape.FindAll inputMatcher root,
      strings.Contains (scrape.Attr n "name") "Password" = false ∧
      strings.Contains (scrape.Attr n "name") "Username" = false) :
    scrapeLoginPage ac₁ root =
      .ok (ac₁.Hostname ++ scrape.Attr form "action",
        passthrough (scrape.FindAll inputMatcher root)) ∧
    scrapeLoginPage ac₂ root = scrapeLoginPage ac₁ root := by
  have h : ∀ ac : AdfsClient, buildFormData ac (scrape.FindAll inputMatcher root) =
      passthrough (scrape.FindAll inputMatcher root) :=
    fun ac => passthrough_eq_of_no_match ac _ hnone _
  rw [scrapeLoginPage_ok ac₁ root form hform, scrapeLoginPage_ok ac₂ root form hform,
    h ac₁, h ac₂, hhost]
  exact ⟨rfl, rfl⟩

/-- C8, witness: a page with the inputs `AuthMethod` and `Email` gives the
clients `alice` and `bob` the same payload, the inputs' own values. -/
theorem C8_no_match_no_injection_witness :
    scrapeLoginPage alice
        (loginPage "/adfs/ls/"
          [inputNode "AuthMethod" "FormsAuthentication", inputNode "Email" "x"]) =
      .ok ("https://idp.example.com/adfs/ls/",
        ⟨[("Email", ["x"]), ("AuthMethod", ["FormsAuthentication"])]⟩) ∧
    scrapeLoginPage ⟨"bob", "hunter2", "https://idp.example.com"⟩
        (loginPage "/adfs/ls/"
          [inputNode "AuthMethod" "FormsAuthentication", inputNode "Email" "x"]) =
      scrapeLoginPage alice
        (loginPage "/adfs/ls/"
          [inputNode "AuthMethod" "FormsAuthentication", inputNode "Email" "x"]) :=
  C8_no_match_no_injection alice ⟨"bob", "hunter2", "https://idp.example.com"⟩
    (loginPage "/adfs/ls/"
      [inputNode "AuthMethod" "FormsAuthentication", inputNode "Email" "x"])
    (loginForm "/adfs/ls/"
      [inputNode "AuthMethod" "FormsAuthentication", inputNode "Email" "x"])
    rfl rfl (by
      intro n hn
      have hn2 : n ∈ [inputNode "AuthMethod" "FormsAuthentication", inputNode "Email" "x"] := hn
      simp only [List.mem_cons, List.mem_singleton, List.not_mem_nil, or_false] at hn2
      rcases hn2 with rfl | rfl <;> decide)

/-- C9: the Password rule comes first. When the document has a form, every
found input whose name contains both "Password" and "Username" is mapped to the
client's Password. -/
theorem C9_password_rule_first (ac : AdfsClient) (root form : Node)
    (hform : scrape.Find formMatcher root = some form) :
    ∃ fd, scrapeLoginPage ac root = .ok (ac.Hostname ++ scrape.Attr form "action", fd) ∧
      ∀ n ∈ scrape.FindAll inputMatcher root,
        strings.Contains (scrape.Attr n "name") "Password" = true →
        strings.Contains (scrape.Attr n "name") "Username" = true →
          fd.lookup (scrape.Attr n "name") = some [ac.Password] := by
  refine ⟨_, scrapeLoginPage_ok ac root form hform, ?_⟩
  intro n hn hp _
  exact buildFormData_lookup_password ac _ n hn hp

/-- C9, witness: the input `UsernamePassword` with the value `own` receives
the password `s3cr3t`. -/
theorem C9_password_rule_first_witness :
    ∃ fd, scrapeLoginPage alice
        (loginPage "/adfs/ls/" [inputNode "UsernamePassword" "own"]) =
        .ok ("https://idp.example.com/adfs/ls/", fd) ∧
      fd.lookup "UsernamePassword" = some ["s3cr3t"] := by
  obtain ⟨fd, hfd, hboth⟩ :=
    C9_password_rule_first alice
      (loginPage "/adfs/ls/" [inputNode "UsernamePassword" "own"])
      (loginForm "/adfs/ls/" [inputNode "UsernamePassword" "own"]) rfl
  exact ⟨fd, hfd, hboth (inputNode "UsernamePassword" "own") (List.Mem.head _)
    (by decide) (by decide)⟩

/-- C10: hostname normalisation in `newAdfsClient`. The resulting Hostname
begins with `https://`; it is the loaded hostname when that already begins with
`https://` and `https://` followed by the loaded hostname otherwise, so that
`http://idp` becomes `https://http://idp`; Username and Password are kept; and
normalising twice is the same as normalising once. -/
theorem C10_hostname_normalisation (client : AdfsClient) :
    strings.HasPrefix (newAdfsClient client).Hostname "https://" = true ∧
    (∃ tail, (newAdfsClient client).Hostname = "https://" ++ tail) ∧
    (strings.HasPrefix client.Hostname "https://" = true →
      (newAdfsClient client).Hostname = client.Hostname) ∧
    (strings.HasPrefix client.Hostname "https://" = false →
      (newAdfsClient client).Hostname = "https://" ++ client.Hostname) ∧
    (newAdfsClient client).Username = client.Username ∧
    (newAdfsClient client).Password = client.Password ∧
    newAdfsClient (newAdfsClient client) = newAdfsClient client ∧
    (newAdfsClient { client with Hostname := "http://idp" }).Hostname =
      "https://http://idp" := by
  have hpre : strings.HasPrefix (newAdfsClient client).Hostname "https://" = true := by
    by_cases h : strings.HasPrefix client.Hostname "https://" = true
    · simp [newAdfsClient, h]
    · simpa [newAdfsClient, h] using strings.HasPrefix_append "https://" client.Hostname
  refine ⟨hpre, ?_, ?_, ?_, ?_, ?_, ?_, ?_⟩
  · obtain ⟨t, ht⟩ := List.isPrefixOf_iff_prefix.mp hpre
    exact ⟨⟨t⟩, String.ext ht.symm⟩
  · intro h
    simp [newAdfsClient, h]
  · intro h
    simp [newAdfsClient, h]
  · by_cases h : strings.HasPrefix client.Hostname "https://" = true <;>
      simp [newAdfsClient, h]
  · by_cases h : strings.HasPrefix client.Hostname "https://" = true <;>
      simp [newAdfsClient, h]
  · rw [newAdfsClient, hpre]
    rfl
  · rfl

/-- C10, witness: the loaded hostnames `https://idp.example.com`,
`idp.example.com` and `http://idp`. -/
theorem C10_hostname_normalisation_witness :
    (newAdfsClient ⟨"alice", "s3cr3t", "https://idp.example.com"⟩).Hostname =
      "https://idp.example.com" ∧
    (newAdfsClient ⟨"alice", "s3cr3t", "idp.example.com"⟩).Hostname =
      "https://idp.example.com" ∧
    (newAdfsClient ⟨"alice", "s3cr3t", "http://idp"⟩).Hostname = "https://http://idp" :=
  ⟨(C10_hostname_normalisation ⟨"alice", "s3cr3t", "https://idp.example.com"⟩).2.2.1
      (by decide),
    (C10_hostname_normalisation ⟨"alice", "s3cr3t", "idp.example.com"⟩).2.2.2.1 (by decide),
    (C10_hostname_normalisation ⟨"alice", "s3cr3t", "http://idp"⟩).2.2.2.1 (by decide)⟩

end AuthAws
